import Mathlib

/-!
Verification of the DevDocs AI conversation pipeline against its specification.

The development shallowly embeds the repository's core logic:

* the context compactor (summarization snippet from
  `blog/posts/001-context-engineering-fundamentals.md`, quoting
  `context_manager.py`),
* the prompt assembly (`LANGUAGE_PROMPTS` snippet from the same post),
* the whole-response streaming fallback and its event stream
  (`frontend/app/api/chat/route.ts`, non-streaming variant),
* the SSE buffering passthrough (`frontend/app/api/chat/route.ts`,
  streaming variant),
* the client-side conversation-id plumbing (`frontend/components`, both
  the AI SDK v6 `Chat` and the legacy `Chat`),
* the `getMessageContent` shape normalizer (`MessageBubble.tsx`), over a
  small model of JavaScript values.

Machine strings are modelled as Lean `String`/`List Char`; Python list
slices and JavaScript `slice`/`split` are given their exact semantics on
those types.
-/

namespace DevDocs

/-! ## Python slice helpers

Exact semantics of the two negative-index slice forms used by
`context_manager.py`: `xs[:-k]` and `xs[-k:]`.  Note the Python corner
case `xs[:-0] = []` and `xs[-0:] = xs`. -/

/-- Python slice `xs[:-k]`: all but the last `k` elements (empty when
`k = 0`, since `xs[:-0]` is `xs[:0]`). -/
def pySliceToNeg (xs : List α) (k : Nat) : List α :=
  if k = 0 then [] else xs.take (xs.length - k)

/-- Python slice `xs[-k:]`: the last `k` elements (all of `xs` when
`k = 0` or `k ≥ xs.length`). -/
def pySliceFromNeg (xs : List α) (k : Nat) : List α :=
  if k = 0 then xs else xs.drop (xs.length - k)

/-! ## Context Compactor

Embedded from the `context_manager.py` snippet quoted in
`blog/posts/001-context-engineering-fundamentals.md` (lines 120-139):

    SUMMARIZATION_THRESHOLD = 20  # messages
    MAX_CONVERSATION_LENGTH = 50  # messages

    if len(all_messages) > settings.SUMMARIZATION_THRESHOLD:
        summary = await self._summarize_conversation(
            messages=all_messages[:-len(messages)], language=language)
        recent_messages = all_messages[-settings.SUMMARIZATION_THRESHOLD:]
        processed = [
            \x7b"role": "system",
             "content": f"Previous conversation summary: \x7bsummary\x7d"\x7d
        ] + recent_messages

The summarization sub-call is itself a model call; it is abstracted as a
function argument `summarize_conversation`.  `messagesLen` stands for
`len(messages)`, the number of messages of the incoming request; the
spec's `retained_tail_size` names the retained tail, which in this code
is the same constant `SUMMARIZATION_THRESHOLD`, and the spec's scenario
identifies `len(messages)` with it. -/

/-- Message: one turn of a conversation, a role/content record as in the
wire payloads of the repository. -/
structure Message where
  role : String
  content : String
  deriving DecidableEq, Repr

/-- Threshold above which older history is summarized
(`SUMMARIZATION_THRESHOLD = 20` in `context_manager.py`). -/
def SUMMARIZATION_THRESHOLD : Nat := 20

/-- Maximum conversation length constant from the same snippet
(`MAX_CONVERSATION_LENGTH = 50`); not used by the summarization branch. -/
def MAX_CONVERSATION_LENGTH : Nat := 50

/-- Summary message constructed by the snippet:
`\x7b"role": "system", "content": f"Previous conversation summary: \x7bsummary\x7d"\x7d`. -/
def summaryMessage (summary : String) : Message :=
  { role := "system", content := "Previous conversation summary: " ++ summary }

/-- Compact: the submission set computed from the full history
`all_messages`.  Over the threshold it summarizes
`all_messages[:-messagesLen]` and keeps the last
`SUMMARIZATION_THRESHOLD` messages; otherwise the history is used
verbatim. -/
def compact (summarize_conversation : List Message → String) (messagesLen : Nat)
    (all_messages : List Message) : List Message :=
  if all_messages.length > SUMMARIZATION_THRESHOLD then
    summaryMessage (summarize_conversation (pySliceToNeg all_messages messagesLen))
      :: pySliceFromNeg all_messages SUMMARIZATION_THRESHOLD
  else
    all_messages

/-! ## Prompt assembly

Embedded from `blog/posts/001-context-engineering-fundamentals.md`
(lines 190-194, quoting the prompt code):

    prompt = BASE_SYSTEM_PROMPT
    if language:
        prompt += f"\n\n\x7bLANGUAGE_PROMPTS[language]\x7d"

A Python dict subscript `d[k]` raises `KeyError` on a missing key, so
the assembly is embedded as an `Except`-valued function. -/

/-- Base system prompt (v2.0, the current one quoted in the blog post). -/
def BASE_SYSTEM_PROMPT : String :=
  "You are DevDocs AI, an intelligent documentation assistant \ndesigned to help developers understand, document, and work with code across \nmultiple programming languages.\n\nYour capabilities include:\n- Explaining code in clear, concise language\n- Generating comprehensive documentation\n- Answering questions about programming concepts\n- Providing code examples and best practices\n- Identifying potential issues and improvements\n\nAlways be:\n- Accurate and precise\n- Helpful and educational\n- Context-aware of the conversation history\n- Respectful of different skill levels\n"

/-- Language-specialization blocks (the two entries spelled out in the
blog post; the dict carries further languages, but none named "cobol" —
the repository's language selector offers only python, javascript,
typescript, java, go, rust, cpp and c). -/
def LANGUAGE_PROMPTS : List (String × String) :=
  [("python", "You are working with Python code. Focus on:\n- Pythonic best practices (PEP 8)\n- Type hints and modern Python features\n- Common libraries and frameworks\n- Python-specific patterns and idioms"),
   ("typescript", "You are working with TypeScript code. Focus on:\n- Strong typing and type safety\n- Interfaces, types, and generics\n- TypeScript-specific patterns\n- Integration with JavaScript frameworks\n- Compiler options and configuration")]

/-- Prompt assembly.  `none` / the empty string are Python-falsy, so the
base prompt alone is used; a truthy unknown key makes
`LANGUAGE_PROMPTS[language]` raise `KeyError`. -/
def build_prompt (language : Option String) : Except String String :=
  match language with
  | none => Except.ok BASE_SYSTEM_PROMPT
  | some l =>
    if l = "" then Except.ok BASE_SYSTEM_PROMPT
    else
      match LANGUAGE_PROMPTS.lookup l with
      | some block => Except.ok (BASE_SYSTEM_PROMPT ++ "\n\n" ++ block)
      | none => Except.error ("KeyError: " ++ l)

/-! ## Stream Relay: whole-response fallback route

Embedded from `src/unnamed/part_004` (the non-streaming variant of
`frontend/app/api/chat/route.ts`).  The handler fetches the full
assistant text from the backend, then synthesizes an event stream:
one `text-start`, a sequence of `text-delta` events obtained by slicing
the text into fixed chunks of `chunkSize = 20` code units (the
`sendChunk` loop), and one `text-end`.  On failure the `catch` block
returns a direct HTTP 500 JSON error response instead of a stream. -/

/-- Stream Event: one unit emitted to the downstream consumer, matching
the wire shapes `text-start` / `text-delta` / `text-end` / `error`. -/
inductive StreamEvent where
  | textStart (id : String)
  | textDelta (id : String) (delta : List Char)
  | textEnd (id : String)
  | error (message : String)
  deriving DecidableEq, Repr

/-- Chunk size of the whole-response fallback (`const chunkSize = 20`). -/
def chunkSize : Nat := 20

/-- Normal-run unrolling of the `sendChunk` loop of `part_004`: at each
step it emits `assistantMessage.slice(index, min(index + chunkSize,
length))` as a `text-delta` and advances `index` by `chunkSize`; when
`index >= assistantMessage.length` it emits `text-end` and closes. -/
def sendChunk (messageId : String) (assistantMessage : List Char) (index : Nat) :
    List StreamEvent :=
  if _h : assistantMessage.length ≤ index then
    [StreamEvent.textEnd messageId]
  else
    StreamEvent.textDelta messageId ((assistantMessage.drop index).take chunkSize)
      :: sendChunk messageId assistantMessage (index + chunkSize)
termination_by assistantMessage.length - index
decreasing_by simp only [chunkSize]; omega

/-- Event sequence of one uninterrupted run of the fallback relay:
`text-start` then the `sendChunk` loop from index 0. -/
def relayEvents (messageId : String) (assistantMessage : List Char) : List StreamEvent :=
  StreamEvent.textStart messageId :: sendChunk messageId assistantMessage 0

/-- Outcome of the backend fetch as seen by the route handler: either a
parsed JSON body (optional `message.content`, optional
`conversation_id`), or a thrown error with its message. -/
inductive BackendResult where
  | ok (content : Option String) (conversation_id : Option String)
  | failure (message : String)
  deriving DecidableEq, Repr

/-- Response produced by the route: an SSE stream of events plus the
optional `x-conversation-id` header, or a direct JSON error response
with an HTTP status. -/
inductive RelayResponse where
  | stream (events : List StreamEvent) (conversationIdHeader : Option String)
  | jsonError (status : Nat) (message : String)
  deriving DecidableEq, Repr

/-- Events visible to the consumer: the stream's events, or none for a
direct JSON error response (no event stream is opened). -/
def eventsOf : RelayResponse → List StreamEvent
  | RelayResponse.stream es _ => es
  | RelayResponse.jsonError _ _ => []

/-- Value of the `x-conversation-id` response header, if set. -/
def headerOf : RelayResponse → Option String
  | RelayResponse.stream _ h => h
  | RelayResponse.jsonError _ _ => none

/-- Header value for `if (backendData.conversation_id)
headers.set('x-conversation-id', ...)`: set only for a truthy id (the
empty string is falsy in JavaScript). -/
def headerValue (conversation_id : Option String) : Option String :=
  match conversation_id with
  | some s => if s = "" then none else some s
  | none => none

/-- POST handler of `part_004`: on success, build the fallback stream
from `assistantMessage = backendData.message?.content || ''` with a
fresh message id, setting the conversation-id header from the backend
body; on a thrown error, return status 500 with a JSON error body. -/
def POST_whole (messageId : String) : BackendResult → RelayResponse
  | BackendResult.ok content conversation_id =>
      RelayResponse.stream (relayEvents messageId (content.getD "").toList)
        (headerValue conversation_id)
  | BackendResult.failure msg => RelayResponse.jsonError 500 msg

/-- Start-event recognizer. -/
def isStart : StreamEvent → Bool
  | StreamEvent.textStart _ => true
  | _ => false

/-- Delta-event recognizer. -/
def isDelta : StreamEvent → Bool
  | StreamEvent.textDelta _ _ => true
  | _ => false

/-- Terminating-event recognizer (`text-end` or `error`). -/
def isTerminal : StreamEvent → Bool
  | StreamEvent.textEnd _ => true
  | StreamEvent.error _ => true
  | _ => false

/-- Text fragment of a delta event, if any. -/
def deltaText : StreamEvent → Option (List Char)
  | StreamEvent.textDelta _ t => some t
  | _ => none

/-- Delta fragments of an event sequence, in emission order. -/
def deltas (es : List StreamEvent) : List (List Char) :=
  es.filterMap deltaText

/-! ## SSE buffering passthrough: streaming route

Embedded from `frontend/app/api/chat/route.ts` (streaming variant,
lines 59-91).  The read loop appends each incoming chunk to `buffer`,
splits the buffer at the double-newline delimiter
(`buffer.split('\n\n')`), keeps the last (possibly incomplete) piece as
the new buffer (`buffer = lines.pop() || ''`), and forwards every
remaining nonblank complete unit with its delimiter restored
(`line + '\n\n'`); at `done` a nonempty held buffer is flushed as-is.
Bytes are modelled as decoded characters. -/

/-- Double-newline unit delimiter of the SSE wire format. -/
def nn : List Char := ['\n', '\n']

/-- Helper re-attaching a character to the first piece of a split result
(used to state `splitOnNN` structurally). -/
def consHead (c : Char) : List (List Char) → List (List Char)
  | [] => [[c]]
  | l :: ls => (c :: l) :: ls

/-- JavaScript `s.split('\n\n')` on a character list: leftmost-first,
non-overlapping split at the double-newline delimiter.  Always returns
at least one (possibly empty) piece. -/
def splitOnNN : List Char → List (List Char)
  | [] => [[]]
  | '\n' :: '\n' :: rest => [] :: splitOnNN rest
  | c :: rest => consHead c (splitOnNN rest)

/-- Occurrence test for the double-newline delimiter. -/
def hasNN : List Char → Bool
  | '\n' :: '\n' :: _ => true
  | _ :: rest => hasNN rest
  | [] => false

/-- Inverse of `splitOnNN`: re-join the pieces with the delimiter. -/
def joinNN : List (List Char) → List Char
  | [] => []
  | [l] => l
  | l :: ls => l ++ nn ++ joinNN ls

/-- JavaScript whitespace test for `line.trim()`, restricted to the
characters that occur in this wire format. -/
def isJSWhitespace (c : Char) : Bool :=
  c = ' ' || c = '\t' || c = '\n' || c = '\r'

/-- A piece is blank when `line.trim()` is falsy: every character is
whitespace. -/
def isBlank (l : List Char) : Bool := l.all isJSWhitespace

/-- Forwarding of one complete piece: dropped when blank
(`if (line.trim())`), otherwise re-framed as `line + '\n\n'`. -/
def forwardUnit (l : List Char) : Option (List Char) :=
  if isBlank l then none else some (l ++ nn)

/-- One iteration of the read loop on an incoming chunk: returns the new
held buffer (the last piece of the split) and the complete units
forwarded downstream. -/
def processChunk (buffer chunk : List Char) : List Char × List (List Char) :=
  ((splitOnNN (buffer ++ chunk)).getLast?.getD [],
   (splitOnNN (buffer ++ chunk)).dropLast.filterMap forwardUnit)

/-- The read loop over a whole sequence of incoming chunks, starting
from the empty buffer: final held buffer and all forwarded units. -/
def processChunks (chunks : List (List Char)) : List Char × List (List Char) :=
  chunks.foldl
    (fun st chunk =>
      ((processChunk st.1 chunk).1, st.2 ++ (processChunk st.1 chunk).2))
    ([], [])

/-- POST handler of the streaming route, body forwarding only: the full
downstream output for a run of the connection, flushing a nonempty held
buffer as-is at `done` (`if (buffer) controller.enqueue(buffer)`). -/
def POST_passthrough (chunks : List (List Char)) : List (List Char) :=
  if (processChunks chunks).1 = [] then (processChunks chunks).2
  else (processChunks chunks).2 ++ [(processChunks chunks).1]

/-! ## Client-side conversation-id plumbing

Embedded from the two `Chat` components in `frontend/components`.  The
legacy variant registers `onResponse`, reading the `x-conversation-id`
response header into component state; the AI SDK v6 variant declares the
same `conversationId` state and sends it in the request body, but never
calls `setConversationId`, so its state never changes.  Both send
`conversation_id: conversationId || undefined` on each turn. -/

/-- Legacy `Chat` `onResponse`: `const convId =
response.headers.get('x-conversation-id'); if (convId)
setConversationId(convId);`.  `get` yields null when absent; the empty
string is falsy. -/
def legacyOnResponse (conversationId : Option String)
    (responseHeader : Option String) : Option String :=
  match responseHeader with
  | some convId => if convId = "" then conversationId else some convId
  | none => conversationId

/-- AI SDK v6 `Chat` variant: no response callback is registered and
`setConversationId` is never called, so the stored id is unchanged by a
response. -/
def v6OnResponse (conversationId : Option String)
    (_responseHeader : Option String) : Option String :=
  conversationId

/-- Conversation id placed in the request body on the next turn:
`conversation_id: conversationId || undefined`. -/
def bodyConversationId (conversationId : Option String) : Option String :=
  match conversationId with
  | some s => if s = "" then none else some s
  | none => none

/-! ## JavaScript value model and `getMessageContent`

Embedded from `frontend/components/MessageBubble.tsx` (lines 14-51).
`getMessageContent` inspects several possible shapes of
`message.content` / `message.parts` / `message.text`.  JavaScript values
are modelled by `JSVal`; property access on `null`/`undefined` throws a
`TypeError`, modelled by `Except`; `String(...)`, truthiness, strict
equality and `Array.prototype.join` are given their JavaScript
semantics on this fragment. -/

/-- Model of a JavaScript runtime value (numbers restricted to
integers; sufficient for the shapes the component inspects). -/
inductive JSVal where
  | undef
  | null
  | bool (b : Bool)
  | num (n : Int)
  | str (s : String)
  | arr (elems : List JSVal)
  | obj (fields : List (String × JSVal))

/-- A thrown JavaScript error (TypeError on property access of
`null`/`undefined`). -/
inductive JSErr where
  | typeError (key : String)
  deriving DecidableEq, Repr

/-- JavaScript truthiness. -/
def truthy : JSVal → Bool
  | JSVal.undef => false
  | JSVal.null => false
  | JSVal.bool b => b
  | JSVal.num n => n != 0
  | JSVal.str s => s ≠ ""
  | JSVal.arr _ => true
  | JSVal.obj _ => true

/-- Strict equality of a value against a string literal. -/
def strictEq (v : JSVal) (s : String) : Bool :=
  match v with
  | JSVal.str t => t = s
  | _ => false

/-- Recognizer for `typeof v === 'string'`. -/
def isStrVal : JSVal → Bool
  | JSVal.str _ => true
  | _ => false

/-- Recognizer for `Array.isArray`. -/
def isArrVal : JSVal → Bool
  | JSVal.arr _ => true
  | _ => false

/-- Plain-object recognizer (`typeof v === 'object'`, array and null
cases being handled separately by the callers). -/
def isObjVal : JSVal → Bool
  | JSVal.obj _ => true
  | _ => false

/-- Elements of an array value. -/
def arrElems : JSVal → List JSVal
  | JSVal.arr es => es
  | _ => []

/-- Property access `v[key]`: throws TypeError on `null`/`undefined`,
yields the field of an object (or `undefined` when missing), and
`undefined` on any other (boxed) primitive or array. -/
def getProp : JSVal → String → Except JSErr JSVal
  | JSVal.undef, key => Except.error (JSErr.typeError key)
  | JSVal.null, key => Except.error (JSErr.typeError key)
  | JSVal.obj fields, key => Except.ok ((fields.lookup key).getD JSVal.undef)
  | _, _ => Except.ok JSVal.undef

mutual

/-- Conversion `String(v)`. -/
def jsToString : JSVal → String
  | JSVal.undef => "undefined"
  | JSVal.null => "null"
  | JSVal.bool b => cond b "true" "false"
  | JSVal.num n => toString n
  | JSVal.str s => s
  | JSVal.arr elems => jsArrString elems
  | JSVal.obj _ => "[object Object]"

/-- Array `toString`: elements joined with commas, `null`/`undefined`
elements becoming empty. -/
def jsArrString : List JSVal → String
  | [] => ""
  | [JSVal.undef] => ""
  | [JSVal.null] => ""
  | [v] => jsToString v
  | JSVal.undef :: vs => "," ++ jsArrString vs
  | JSVal.null :: vs => "," ++ jsArrString vs
  | v :: vs => jsToString v ++ "," ++ jsArrString vs

end

/-- Join `Array.prototype.join('')`: concatenation of the element
conversions, `null`/`undefined` elements becoming empty. -/
def jsJoinEmpty : List JSVal → String
  | [] => ""
  | JSVal.undef :: vs => jsJoinEmpty vs
  | JSVal.null :: vs => jsJoinEmpty vs
  | v :: vs => jsToString v ++ jsJoinEmpty vs

/-- Short-circuit `a || b`. -/
def jsOr (a b : JSVal) : JSVal := if truthy a then a else b

/-- The message fields inspected by `getMessageContent` (absent fields
are `undefined`). -/
structure JSMessage where
  content : JSVal
  parts : JSVal
  text : JSVal

/-- Filter of Case 2: `part && (part.type === 'text' || part.text)`. -/
def partFilter (part : JSVal) : Except JSErr Bool :=
  if truthy part then
    match getProp part "type" with
    | Except.error e => Except.error e
    | Except.ok ty =>
      if strictEq ty "text" then Except.ok true
      else
        match getProp part "text" with
        | Except.error e => Except.error e
        | Except.ok tx => Except.ok (truthy tx)
  else Except.ok false

/-- Map of Case 2: `part.text || part.content || String(part)`. -/
def partValue (part : JSVal) : Except JSErr JSVal :=
  match getProp part "text" with
  | Except.error e => Except.error e
  | Except.ok tx =>
    if truthy tx then Except.ok tx
    else
      match getProp part "content" with
      | Except.error e => Except.error e
      | Except.ok ct =>
        if truthy ct then Except.ok ct
        else Except.ok (JSVal.str (jsToString part))

/-- Filter of Case 4: `part && part.type === 'text'`. -/
def partFilterParts (part : JSVal) : Except JSErr Bool :=
  if truthy part then
    match getProp part "type" with
    | Except.error e => Except.error e
    | Except.ok ty => Except.ok (strictEq ty "text")
  else Except.ok false

/-- Map of Case 4: `part.text`. -/
def partValueParts (part : JSVal) : Except JSErr JSVal :=
  getProp part "text"

/-- Filter `Array.prototype.filter` with a possibly-throwing predicate. -/
def filterME (p : JSVal → Except JSErr Bool) : List JSVal → Except JSErr (List JSVal)
  | [] => Except.ok []
  | v :: vs =>
    match p v with
    | Except.error e => Except.error e
    | Except.ok b =>
      match filterME p vs with
      | Except.error e => Except.error e
      | Except.ok rest => Except.ok (if b then v :: rest else rest)

/-- Map `Array.prototype.map` with a possibly-throwing function. -/
def mapME (f : JSVal → Except JSErr JSVal) : List JSVal → Except JSErr (List JSVal)
  | [] => Except.ok []
  | v :: vs =>
    match f v with
    | Except.error e => Except.error e
    | Except.ok w =>
      match mapME f vs with
      | Except.error e => Except.error e
      | Except.ok rest => Except.ok (w :: rest)

/-- Cases 4 and 5 of `getMessageContent`: extract from a `parts` array
when present, else `String(msgAny.content || msgAny.text || '')`. -/
def caseParts (m : JSMessage) : Except JSErr JSVal :=
  if isArrVal m.parts then
    match filterME partFilterParts (arrElems m.parts) with
    | Except.error e => Except.error e
    | Except.ok fs =>
      match mapME partValueParts fs with
      | Except.error e => Except.error e
      | Except.ok vs => Except.ok (JSVal.str (jsJoinEmpty vs))
  else
    Except.ok (JSVal.str (jsToString (jsOr (jsOr m.content m.text) (JSVal.str ""))))

/-- The `getMessageContent` closure of `MessageBubble`, over the
JavaScript value model: Case 1 string content, Case 2 array content,
Case 3 object content with `text`/`content` fields, Case 4 `parts`
array, Case 5 `String(...)` fallback. -/
def getMessageContent (m : JSMessage) : Except JSErr JSVal :=
  if isStrVal m.content then Except.ok m.content
  else if isArrVal m.content then
    match filterME partFilter (arrElems m.content) with
    | Except.error e => Except.error e
    | Except.ok fs =>
      match mapME partValue fs with
      | Except.error e => Except.error e
      | Except.ok vs => Except.ok (JSVal.str (jsJoinEmpty vs))
  else if truthy m.content && isObjVal m.content then
    match getProp m.content "text" with
    | Except.error e => Except.error e
    | Except.ok tx =>
      if truthy tx then Except.ok tx
      else
        match getProp m.content "content" with
        | Except.error e => Except.error e
        | Except.ok ct =>
          if truthy ct then Except.ok ct
          else caseParts m
  else caseParts m

/-- Recognizer of a non-throwing string result. -/
def isStrOk : Except JSErr JSVal → Bool
  | Except.ok (JSVal.str _) => true
  | _ => false

/-- The one shape on which Case 3 returns a raw non-string value: an
object content whose `text` field (or, that failing, `content` field) is
truthy but not a string. -/
def case3Leak (m : JSMessage) : Bool :=
  match m.content with
  | JSVal.obj fields =>
    ((truthy ((fields.lookup "text").getD JSVal.undef)) &&
      !(isStrVal ((fields.lookup "text").getD JSVal.undef))) ||
    (!(truthy ((fields.lookup "text").getD JSVal.undef)) &&
      (truthy ((fields.lookup "content").getD JSVal.undef)) &&
      !(isStrVal ((fields.lookup "content").getD JSVal.undef)))
  | _ => false

/-! ## Concrete data used by witnesses -/

/-- Concrete 3-message history, below the summarization trigger. -/
def historySmall : List Message :=
  [{ role := "user", content := "hi" },
   { role := "assistant", content := "hello" },
   { role := "user", content := "explain this code" }]

/-- Concrete 25-message history for the C1 scenario. -/
def history25 : List Message :=
  (List.range 25).map (fun i => { role := "user", content := toString i })

/-- Concrete 45-code-unit assistant text for the C2 scenario. -/
def text45 : List Char := List.replicate 45 'a'

/-- Incoming wire chunks whose second chunk leaves a trailing partial
unit in the buffer. -/
def chunksHeld : List (List Char) := ["data: x\n\nda".toList, "ta: y".toList]

/-- Two well-formed framed units. -/
def unitsTwo : List (List Char) := ["data: a".toList, "data: b".toList]

/-- A re-chunking of `unitsTwo`'s wire bytes that cuts across a unit
boundary. -/
def chunksTwo : List (List Char) := ["data: a\n\nda".toList, "ta: b\n\n".toList]

/-- Message whose object content has a truthy non-string `text` field. -/
def msgLeak : JSMessage :=
  { content := JSVal.obj [("text", JSVal.num 42)],
    parts := JSVal.undef, text := JSVal.undef }

/-- Message with plain string content. -/
def msgStr : JSMessage :=
  { content := JSVal.str "hello", parts := JSVal.undef, text := JSVal.undef }

end DevDocs

namespace DevDocs

/-! ## Theorems about the Context Compactor -/

/-- C6: a history at or under the summarization trigger is returned
verbatim, with no summary message. -/
theorem compact_at_or_under_trigger (summarize_conversation : List Message → String)
    (messagesLen : Nat) (history : List Message)
    (h : history.length ≤ SUMMARIZATION_THRESHOLD) :
    compact summarize_conversation messagesLen history = history := by
  unfold compact
  rw [if_neg]
  omega

/-- Witness for `compact_at_or_under_trigger` at a concrete 3-message
history. -/
theorem compact_at_or_under_trigger_witness :
    historySmall.length ≤ SUMMARIZATION_THRESHOLD ∧
    compact (fun _ => "s") 3 historySmall = historySmall :=
  ⟨by decide, compact_at_or_under_trigger (fun _ => "s") 3 historySmall (by decide)⟩

/-- C1: a history longer than the trigger is split into the older part
`history[:-retained_tail_size]` (here `retained_tail_size =
SUMMARIZATION_THRESHOLD = 20`, the spec's identification) and the
verbatim tail `history[-retained_tail_size:]`; the older part — exactly
the first `length - 20` messages — is passed to the summarizer, and the
result is one summary message followed by the 20-message tail in source
order. -/
theorem compact_over_trigger (summarize_conversation : List Message → String)
    (history : List Message) (h : SUMMARIZATION_THRESHOLD < history.length) :
    compact summarize_conversation SUMMARIZATION_THRESHOLD history =
      summaryMessage
          (summarize_conversation (history.take (history.length - SUMMARIZATION_THRESHOLD)))
        :: history.drop (history.length - SUMMARIZATION_THRESHOLD) ∧
    (history.drop (history.length - SUMMARIZATION_THRESHOLD)).length =
      SUMMARIZATION_THRESHOLD ∧
    (compact summarize_conversation SUMMARIZATION_THRESHOLD history).length =
      SUMMARIZATION_THRESHOLD + 1 := by
  have hc : compact summarize_conversation SUMMARIZATION_THRESHOLD history =
      summaryMessage
          (summarize_conversation (history.take (history.length - SUMMARIZATION_THRESHOLD)))
        :: history.drop (history.length - SUMMARIZATION_THRESHOLD) := by
    unfold compact pySliceToNeg pySliceFromNeg
    rw [if_pos h, if_neg (by decide : ¬ SUMMARIZATION_THRESHOLD = 0),
      if_neg (by decide : ¬ SUMMARIZATION_THRESHOLD = 0)]
  refine ⟨hc, ?_, ?_⟩
  · rw [List.length_drop]
    omega
  · rw [hc]
    simp only [List.length_cons, List.length_drop]
    omega

/-- Witness for `compact_over_trigger`: the 25-message scenario with
trigger and retained tail both 20 gives a 21-message submission set, the
summarizer receives exactly the first 5 messages, and the tail is the
last 20 messages verbatim. -/
theorem compact_over_trigger_witness :
    SUMMARIZATION_THRESHOLD < history25.length ∧
    (compact (fun ms => toString ms.length) SUMMARIZATION_THRESHOLD history25 =
      summaryMessage
          (toString (history25.take (history25.length - SUMMARIZATION_THRESHOLD)).length)
        :: history25.drop (history25.length - SUMMARIZATION_THRESHOLD) ∧
    (history25.drop (history25.length - SUMMARIZATION_THRESHOLD)).length =
      SUMMARIZATION_THRESHOLD ∧
    (compact (fun ms => toString ms.length) SUMMARIZATION_THRESHOLD history25).length =
      SUMMARIZATION_THRESHOLD + 1) ∧
    history25.take (history25.length - SUMMARIZATION_THRESHOLD) = history25.take 5 := by
  refine ⟨by decide, compact_over_trigger (fun ms => toString ms.length) history25 (by decide), ?_⟩
  rfl

/-! ## Theorems about prompt assembly -/

/-- C8 counterexample: the unrecognized hint "cobol" is truthy and
absent from `LANGUAGE_PROMPTS`, so the dict subscript raises `KeyError`
instead of silently falling back to the base prompt. -/
theorem build_prompt_cobol_raises :
    build_prompt (some "cobol") = Except.error "KeyError: cobol" ∧
    build_prompt (some "cobol") ≠ Except.ok BASE_SYSTEM_PROMPT := by
  constructor
  · rfl
  · intro h
    have h2 : Except.error (ε := String) "KeyError: cobol" =
        Except.ok (α := String) BASE_SYSTEM_PROMPT := h
    exact Except.noConfusion h2

/-- C8 amended: a truthy `language_hint` missing from
`LANGUAGE_PROMPTS` makes `build_prompt` raise a `KeyError`; only an
absent or empty hint yields the base prompt alone. -/
theorem build_prompt_unrecognized (l : String) (h1 : l ≠ "")
    (h2 : LANGUAGE_PROMPTS.lookup l = none) :
    build_prompt (some l) = Except.error ("KeyError: " ++ l) ∧
    build_prompt none = Except.ok BASE_SYSTEM_PROMPT ∧
    build_prompt (some "") = Except.ok BASE_SYSTEM_PROMPT := by
  refine ⟨?_, rfl, rfl⟩
  simp only [build_prompt, if_neg h1, h2]

/-- Witness for `build_prompt_unrecognized` at the hint "cobol". -/
theorem build_prompt_unrecognized_witness :
    "cobol" ≠ "" ∧ LANGUAGE_PROMPTS.lookup "cobol" = none ∧
    (build_prompt (some "cobol") = Except.error ("KeyError: " ++ "cobol") ∧
     build_prompt none = Except.ok BASE_SYSTEM_PROMPT ∧
     build_prompt (some "") = Except.ok BASE_SYSTEM_PROMPT) :=
  ⟨by decide, by decide, build_prompt_unrecognized "cobol" (by decide) (by decide)⟩

/-! ## Lemmas about the whole-response fallback loop -/

/-- Shape of the `sendChunk` loop output: some deltas followed by
exactly one `text-end`. -/
theorem sendChunk_shape (messageId : String) (assistantMessage : List Char) (index : Nat) :
    ∃ ds, sendChunk messageId assistantMessage index =
        ds ++ [StreamEvent.textEnd messageId] ∧
      ∀ e ∈ ds, ∃ t, e = StreamEvent.textDelta messageId t := by
  induction index using sendChunk.induct messageId assistantMessage with
  | case1 x hx =>
    refine ⟨[], ?_, by simp⟩
    rw [sendChunk]
    simp [hx]
  | case2 x hx ih =>
    obtain ⟨ds, hds, hall⟩ := ih
    refine ⟨StreamEvent.textDelta messageId
        ((assistantMessage.drop x).take chunkSize) :: ds, ?_, ?_⟩
    · rw [sendChunk]
      simp [hx, hds]
    · intro e he
      rcases List.mem_cons.mp he with he | he
      · exact ⟨_, he⟩
      · exact hall e he

/-- Deltas of an exhausted loop are empty. -/
theorem deltas_sendChunk_nil (messageId : String) (assistantMessage : List Char)
    (index : Nat) (h : assistantMessage.length ≤ index) :
    deltas (sendChunk messageId assistantMessage index) = [] := by
  rw [sendChunk]
  simp [h, deltas, deltaText]

/-- Deltas of an unexhausted loop are nonempty. -/
theorem deltas_sendChunk_ne_nil (messageId : String) (assistantMessage : List Char)
    (index : Nat) (h : ¬ assistantMessage.length ≤ index) :
    deltas (sendChunk messageId assistantMessage index) ≠ [] := by
  rw [sendChunk]
  simp [h, deltas, deltaText]

/-- Concatenating the delta fragments of the loop reproduces the text
from the current index on. -/
theorem deltas_sendChunk_flatten (messageId : String) (assistantMessage : List Char)
    (index : Nat) :
    (deltas (sendChunk messageId assistantMessage index)).flatten =
      assistantMessage.drop index := by
  induction index using sendChunk.induct messageId assistantMessage with
  | case1 x hx =>
    rw [sendChunk]
    simp [hx, deltas, deltaText, List.drop_eq_nil_of_le hx]
  | case2 x hx ih =>
    rw [sendChunk]
    simp only [dif_neg hx, deltas, List.filterMap_cons, deltaText, List.flatten_cons]
    rw [show (deltas (sendChunk messageId assistantMessage (x + chunkSize)) =
        List.filterMap deltaText (sendChunk messageId assistantMessage (x + chunkSize)))
      from rfl] at ih
    rw [ih, ← List.drop_drop, List.take_append_drop]

/-- Every delta of the loop except possibly the last has length exactly
`chunkSize`. -/
theorem deltas_sendChunk_dropLast (messageId : String) (assistantMessage : List Char)
    (index : Nat) :
    ∀ d ∈ (deltas (sendChunk messageId assistantMessage index)).dropLast,
      d.length = chunkSize := by
  induction index using sendChunk.induct messageId assistantMessage with
  | case1 x hx =>
    rw [sendChunk]
    simp [hx, deltas, deltaText]
  | case2 x hx ih =>
    rw [sendChunk]
    by_cases h2 : assistantMessage.length ≤ x + chunkSize
    · simp only [dif_neg hx, deltas, List.filterMap_cons, deltaText]
      rw [show (List.filterMap deltaText (sendChunk messageId assistantMessage (x + chunkSize)) =
          deltas (sendChunk messageId assistantMessage (x + chunkSize))) from rfl]
      rw [deltas_sendChunk_nil messageId assistantMessage (x + chunkSize) h2]
      simp
    · have hne := deltas_sendChunk_ne_nil messageId assistantMessage (x + chunkSize) h2
      obtain ⟨d0, ds0, hds0⟩ :=
        List.exists_cons_of_ne_nil hne
      simp only [dif_neg hx, deltas, List.filterMap_cons, deltaText]
      rw [show (List.filterMap deltaText (sendChunk messageId assistantMessage (x + chunkSize)) =
          deltas (sendChunk messageId assistantMessage (x + chunkSize))) from rfl]
      rw [hds0, List.dropLast_cons₂]
      intro d hd
      rcases List.mem_cons.mp hd with hd | hd
      · subst hd
        simp only [List.length_take, List.length_drop]
        omega
      · exact ih d (by rw [hds0]; exact hd)

/-- Concrete unfolding of the loop for a 45-code-unit text: exactly
three deltas slicing the text at indices 0, 20 and 40. -/
theorem deltas_sendChunk_45 (messageId : String) (assistantMessage : List Char)
    (h : assistantMessage.length = 45) :
    deltas (sendChunk messageId assistantMessage 0) =
      [assistantMessage.take chunkSize,
       (assistantMessage.drop chunkSize).take chunkSize,
       (assistantMessage.drop (chunkSize + chunkSize)).take chunkSize] := by
  rw [sendChunk, dif_neg (by omega)]
  rw [sendChunk, dif_neg (by simp only [chunkSize]; omega)]
  rw [sendChunk, dif_neg (by simp only [chunkSize]; omega)]
  rw [sendChunk, dif_pos (by simp only [chunkSize]; omega)]
  simp [deltas, deltaText, List.drop_drop]

/-! ## Claim theorems about the whole-response fallback -/

/-- C2: the whole-response fallback emits deltas that are consecutive
fixed-size slices of the assistant text — every delta but the last has
length exactly `chunkSize = 20`, and concatenating all delta fragments
in emission order reproduces the text exactly; the final event is
`text-end`, and for a 45-code-unit text the delta lengths are
`[20, 20, 5]`. -/
theorem relay_roundtrip (messageId : String) (assistantMessage : List Char) :
    (deltas (relayEvents messageId assistantMessage)).flatten = assistantMessage ∧
    (∀ d ∈ (deltas (relayEvents messageId assistantMessage)).dropLast,
      d.length = chunkSize) ∧
    (relayEvents messageId assistantMessage).getLast? =
      some (StreamEvent.textEnd messageId) ∧
    (assistantMessage.length = 45 →
      (deltas (relayEvents messageId assistantMessage)).map List.length =
        [20, 20, 5]) := by
  have hd : deltas (relayEvents messageId assistantMessage) =
      deltas (sendChunk messageId assistantMessage 0) := by
    simp [relayEvents, deltas, deltaText]
  refine ⟨?_, ?_, ?_, ?_⟩
  · rw [hd, deltas_sendChunk_flatten]
    exact List.drop_zero assistantMessage
  · rw [hd]
    exact deltas_sendChunk_dropLast messageId assistantMessage 0
  · obtain ⟨ds, hds, -⟩ := sendChunk_shape messageId assistantMessage 0
    rw [relayEvents, hds, ← List.cons_append, List.getLast?_concat]
  · intro h45
    rw [hd, deltas_sendChunk_45 messageId assistantMessage h45]
    simp only [List.map_cons, List.map_nil, List.length_take, List.length_drop, h45,
      chunkSize]
    norm_num

/-- Witness for `relay_roundtrip` at a concrete 45-code-unit text. -/
theorem relay_roundtrip_witness :
    (deltas (relayEvents "msg_1" text45)).flatten = text45 ∧
    (deltas (relayEvents "msg_1" text45)).map List.length = [20, 20, 5] :=
  ⟨(relay_roundtrip "msg_1" text45).1,
   (relay_roundtrip "msg_1" text45).2.2.2 (by decide)⟩

/-- C3: one uninterrupted run of the fallback relay emits exactly one
`start` and exactly one terminating event, and every event strictly
between them is a `delta` carrying the same id — so no delta precedes
the start or follows the terminator. -/
theorem relay_event_ordering (messageId : String) (assistantMessage : List Char) :
    ∃ ds,
      relayEvents messageId assistantMessage =
        StreamEvent.textStart messageId ::
          (ds ++ [StreamEvent.textEnd messageId]) ∧
      (∀ e ∈ ds, ∃ t, e = StreamEvent.textDelta messageId t) ∧
      (relayEvents messageId assistantMessage).countP isStart = 1 ∧
      (relayEvents messageId assistantMessage).countP isTerminal = 1 := by
  obtain ⟨ds, hds, hall⟩ := sendChunk_shape messageId assistantMessage 0
  have hre : relayEvents messageId assistantMessage =
      StreamEvent.textStart messageId :: (ds ++ [StreamEvent.textEnd messageId]) := by
    rw [relayEvents, hds]
  have hzero : ∀ p : StreamEvent → Bool,
      (∀ t, p (StreamEvent.textDelta messageId t) = false) → ds.countP p = 0 := by
    intro p hp
    refine List.countP_eq_zero.mpr ?_
    intro e he
    obtain ⟨t, rfl⟩ := hall e he
    simp [hp t]
  refine ⟨ds, hre, hall, ?_, ?_⟩
  · rw [hre]
    simp [List.countP_cons, List.countP_append, isStart,
      hzero isStart (fun t => rfl)]
  · rw [hre]
    simp [List.countP_cons, List.countP_append, isTerminal,
      hzero isTerminal (fun t => rfl)]

/-- C5 counterexample: when the provider call fails before any text,
the route returns a direct JSON error response, so the event sequence
seen by the consumer is empty — not the single pre-start `error` event
the claim describes. -/
theorem provider_failure_no_error_event :
    eventsOf (POST_whole "msg_1" (BackendResult.failure "boom")) ≠
      [StreamEvent.error "boom"] := by
  decide

/-- C5 amended: if the provider call fails before any text is produced,
the failure is surfaced exactly once as a direct HTTP 500 JSON error
response; no event stream is opened, so the consumer sees zero events —
in particular zero `delta` and zero `start` events. -/
theorem provider_failure_pre_start (messageId message : String) :
    POST_whole messageId (BackendResult.failure message) =
      RelayResponse.jsonError 500 message ∧
    eventsOf (POST_whole messageId (BackendResult.failure message)) = [] ∧
    (eventsOf (POST_whole messageId (BackendResult.failure message))).countP
      isDelta = 0 ∧
    (eventsOf (POST_whole messageId (BackendResult.failure message))).countP
      isStart = 0 := by
  refine ⟨rfl, rfl, rfl, rfl⟩

end DevDocs

namespace DevDocs

/-! ## Lemmas about `splitOnNN` -/

/-- A split result is never the empty list. -/
theorem splitOnNN_ne_nil (cs : List Char) : splitOnNN cs ≠ [] := by
  induction cs using splitOnNN.induct with
  | case1 => simp [splitOnNN]
  | case2 rest ih => simp [splitOnNN]
  | case3 c rest h ih =>
    simp only [splitOnNN]
    cases hs : splitOnNN rest with
    | nil => simp [consHead]
    | cons l ls => simp [consHead]

/-- Unfolding of `hasNN` over a cons that does not start the
delimiter. -/
theorem hasNN_cons (a : Char) (rest : List Char)
    (hg : ¬ (a = '\n' ∧ rest.head? = some '\n')) :
    hasNN (a :: rest) = hasNN rest := by
  cases rest with
  | nil =>
    cases a
    simp [hasNN]
  | cons b r =>
    by_cases hb : a = '\n' ∧ b = '\n'
    · exact absurd ⟨hb.1, by simp [hb.2]⟩ hg
    · rw [hasNN.eq_def]
      rcases eq_or_ne a '\n' with rfl | ha
      · rcases eq_or_ne b '\n' with rfl | hbb
        · exact absurd ⟨rfl, rfl⟩ hb
        · simp [hbb]
      · simp [ha]

/-- No piece of a split contains the delimiter, and the first piece
starts with the first character of the input (or is empty). -/
theorem splitOnNN_parts (cs : List Char) :
    (∀ l ∈ splitOnNN cs, hasNN l = false) ∧
    (∀ l ls, splitOnNN cs = l :: ls → l = [] ∨ l.head? = cs.head?) := by
  induction cs using splitOnNN.induct with
  | case1 =>
    constructor
    · intro l hl
      simp [splitOnNN] at hl
      simp [hl, hasNN]
    · intro l ls hl
      simp [splitOnNN] at hl
      exact Or.inl hl.1
  | case2 rest ih =>
    constructor
    · intro l hl
      simp only [splitOnNN, List.mem_cons] at hl
      rcases hl with rfl | hl
      · simp [hasNN]
      · exact ih.1 l hl
    · intro l ls hl
      simp only [splitOnNN, List.cons.injEq] at hl
      exact Or.inl hl.1.symm
  | case3 c rest h ih =>
    have hguard : ¬ (c = '\n' ∧ rest.head? = some '\n') := by
      rintro ⟨rfl, hh⟩
      cases rest with
      | nil => simp at hh
      | cons b r =>
        simp at hh
        exact h r rfl (by rw [hh])
    cases hs : splitOnNN rest with
    | nil => exact absurd hs (splitOnNN_ne_nil rest)
    | cons l0 ls0 =>
      have hsp : splitOnNN (c :: rest) = (c :: l0) :: ls0 := by
        simp only [splitOnNN, hs, consHead]
      have hl0 : hasNN l0 = false :=
        ih.1 l0 (by rw [hs]; exact List.mem_cons_self l0 ls0)
      have hhead : l0 = [] ∨ l0.head? = rest.head? := ih.2 l0 ls0 hs
      have hcl0 : hasNN (c :: l0) = false := by
        rcases hhead with rfl | hh
        · rw [hasNN_cons c [] (by simp)]
          simp [hasNN]
        · rw [hasNN_cons c l0 (by rw [hh]; exact hguard)]
          exact hl0
      constructor
      · intro l hl
        rw [hsp] at hl
        rcases List.mem_cons.mp hl with rfl | hl
        · exact hcl0
        · exact ih.1 l (by rw [hs]; exact List.mem_cons_of_mem l0 hl)
      · intro l ls hl
        rw [hsp] at hl
        obtain ⟨rfl, rfl⟩ := List.cons.injEq .. |>.mp hl |>.imp id id
        exact Or.inr (by simp)

/-- A delimiter-free buffer splits into itself alone. -/
theorem splitOnNN_of_no_nn (cs : List Char) (h : hasNN cs = false) :
    splitOnNN cs = [cs] := by
  induction cs using splitOnNN.induct with
  | case1 => simp [splitOnNN]
  | case2 rest ih => simp [hasNN] at h
  | case3 c rest hg ih =>
    have hguard : ¬ (c = '\n' ∧ rest.head? = some '\n') := by
      rintro ⟨rfl, hh⟩
      cases rest with
      | nil => simp at hh
      | cons b r =>
        simp at hh
        exact hg r rfl (by rw [hh])
    rw [hasNN_cons c rest hguard] at h
    simp only [splitOnNN, ih h, consHead]

/-- Unfolding of `joinNN` over a cons with a nonempty tail. -/
theorem joinNN_cons (l : List Char) (ls : List (List Char)) (h : ls ≠ []) :
    joinNN (l :: ls) = l ++ nn ++ joinNN ls := by
  cases ls with
  | nil => exact absurd rfl h
  | cons m ms =>
    rw [joinNN]
    simp

/-- Applying `joinNN` after `consHead` re-attaches the character. -/
theorem joinNN_consHead (c : Char) (ls : List (List Char)) (h : ls ≠ []) :
    joinNN (consHead c ls) = c :: joinNN ls := by
  cases ls with
  | nil => exact absurd rfl h
  | cons m ms =>
    cases ms with
    | nil => simp [consHead, joinNN]
    | cons m2 ms2 =>
      simp only [consHead]
      rw [joinNN_cons (c :: m) (m2 :: ms2) (by simp),
        joinNN_cons m (m2 :: ms2) (by simp)]
      simp

/-- Splitting loses nothing: re-joining the pieces with the delimiter
restores the input. -/
theorem joinNN_splitOnNN (cs : List Char) : joinNN (splitOnNN cs) = cs := by
  induction cs using splitOnNN.induct with
  | case1 => simp [splitOnNN, joinNN]
  | case2 rest ih =>
    simp only [splitOnNN]
    rw [joinNN_cons [] (splitOnNN rest) (splitOnNN_ne_nil rest), ih]
    simp [nn]
  | case3 c rest hg ih =>
    simp only [splitOnNN]
    rw [joinNN_consHead c (splitOnNN rest) (splitOnNN_ne_nil rest), ih]

/-- The last element ignores a cons onto a nonempty list. -/
theorem getLast?_cons_ne {α : Type} (a : α) (l : List α) (h : l ≠ []) :
    (a :: l).getLast? = l.getLast? := by
  cases l with
  | nil => exact absurd rfl h
  | cons b m => exact List.getLast?_cons_cons

/-- Unfolding of `splitOnNN` over a cons that does not start the
delimiter. -/
theorem splitOnNN_cons_ne (c : Char) (rest : List Char)
    (h : ¬ (c = '\n' ∧ rest.head? = some '\n')) :
    splitOnNN (c :: rest) = consHead c (splitOnNN rest) := by
  cases rest with
  | nil => simp [splitOnNN, consHead]
  | cons r rest2 =>
    have hfun : ∀ (t : List Char), c = '\n' → r :: rest2 = '\n' :: t → False := by
      intro t hc hh
      exact h ⟨hc, by rw [List.head?_cons, (List.cons.injEq .. |>.mp hh).1]⟩
    simp only [splitOnNN]

/-- Unfolding of `splitOnNN` at a leading delimiter. -/
theorem splitOnNN_nn_cons (rest : List Char) :
    splitOnNN ('\n' :: '\n' :: rest) = [] :: splitOnNN rest := by
  simp [splitOnNN]

/-- Splitting a concatenation: the pieces of `x` except the last, then
the split of the last piece glued to `y`.  This is the key law behind
chunking-invariance of the buffered read loop. -/
theorem splitOnNN_append (x y : List Char) :
    splitOnNN (x ++ y) =
      (splitOnNN x).dropLast ++ splitOnNN ((splitOnNN x).getLast?.getD [] ++ y) := by
  induction x using splitOnNN.induct with
  | case1 => simp [splitOnNN]
  | case2 rest ih =>
    have hne := splitOnNN_ne_nil rest
    rw [List.cons_append, List.cons_append, splitOnNN_nn_cons (rest ++ y), ih,
      splitOnNN_nn_cons rest,
      List.dropLast_cons_of_ne_nil hne,
      getLast?_cons_ne [] (splitOnNN rest) hne,
      List.cons_append]
  | case3 c rest hg ih =>
    have hguard : ¬ (c = '\n' ∧ rest.head? = some '\n') := by
      rintro ⟨rfl, hh⟩
      cases rest with
      | nil => simp at hh
      | cons b r =>
        simp at hh
        exact hg r rfl (by rw [hh])
    cases rest with
    | nil =>
      rw [splitOnNN_cons_ne c [] (by simp)]
      simp [splitOnNN, consHead]
    | cons r rest2 =>
      have hguard2 : ¬ (c = '\n' ∧ (r :: (rest2 ++ y)).head? = some '\n') := by
        intro hcp
        exact hguard ⟨hcp.1, by simpa using hcp.2⟩
      obtain ⟨l0, ls0, hs⟩ := List.exists_cons_of_ne_nil (splitOnNN_ne_nil (r :: rest2))
      rw [List.cons_append, List.cons_append,
        splitOnNN_cons_ne c (r :: (rest2 ++ y)) hguard2, ← List.cons_append, ih,
        splitOnNN_cons_ne c (r :: rest2) hguard, hs]
      cases ls0 with
      | nil =>
        have hrest : r :: rest2 = l0 := by
          have hj := joinNN_splitOnNN (r :: rest2)
          rw [hs] at hj
          simpa [joinNN] using hj.symm
        have hg3 : ¬ (c = '\n' ∧ (l0 ++ y).head? = some '\n') := by
          intro hcp
          rw [← hrest] at hcp
          exact hguard ⟨hcp.1, by simpa using hcp.2⟩
        simp only [List.dropLast_single, List.getLast?_singleton, Option.getD_some,
          List.nil_append, consHead]
        rw [List.cons_append, splitOnNN_cons_ne c (l0 ++ y) hg3]
        cases splitOnNN (l0 ++ y) with
        | nil => rfl
        | cons q qs => rfl
      | cons m ms =>
        simp only [List.dropLast_cons₂, List.getLast?_cons_cons, consHead,
          List.cons_append, List.append_assoc]

/-- Splitting a well-formed framed unit off the front of the wire. -/
theorem splitOnNN_unit (u rest : List Char) (hu : hasNN u = false)
    (hlast : u.getLast? ≠ some '\n') :
    splitOnNN (u ++ (nn ++ rest)) = u :: splitOnNN rest := by
  induction u with
  | nil =>
    rw [List.nil_append]
    exact splitOnNN_nn_cons rest
  | cons a u2 ih =>
    cases u2 with
    | nil =>
      have ha : a ≠ '\n' := by simpa using hlast
      rw [List.cons_append, List.nil_append,
        splitOnNN_cons_ne a (nn ++ rest) (fun hcp => ha hcp.1),
        show nn ++ rest = '\n' :: '\n' :: rest from rfl,
        splitOnNN_nn_cons, consHead]
    | cons b u3 =>
      have hab : ¬ (a = '\n' ∧ b = '\n') := by
        rintro ⟨rfl, rfl⟩
        simp [hasNN] at hu
      have hu2 : hasNN (b :: u3) = false := by
        rw [hasNN_cons a (b :: u3)
          (fun hcp => hab ⟨hcp.1, by simpa using hcp.2⟩)] at hu
        exact hu
      have hlast2 : (b :: u3).getLast? ≠ some '\n' := by
        intro hcontr
        exact hlast (by rw [getLast?_cons_ne a (b :: u3) (by simp)]; exact hcontr)
      rw [List.cons_append,
        splitOnNN_cons_ne a ((b :: u3) ++ (nn ++ rest))
          (fun hcp => hab ⟨hcp.1, by simpa using hcp.2⟩),
        ih hu2 hlast2, consHead]

/-- Splitting a wire consisting of well-formed framed units recovers
exactly those units plus a final empty piece. -/
theorem splitOnNN_wire (units : List (List Char))
    (hgood : ∀ u ∈ units, hasNN u = false ∧ u.getLast? ≠ some '\n') :
    splitOnNN ((units.map (fun u => u ++ nn)).flatten) = units ++ [[]] := by
  induction units with
  | nil => simp [splitOnNN]
  | cons u us ih =>
    simp only [List.map_cons, List.flatten_cons, List.append_assoc]
    rw [splitOnNN_unit u _ (hgood u (List.mem_cons_self u us)).1
        (hgood u (List.mem_cons_self u us)).2,
      ih (fun v hv => hgood v (List.mem_cons_of_mem u hv))]
    rfl

/-! ## Lemmas about the buffered read loop -/

/-- The held buffer after a loop iteration never contains the
delimiter: it is always a partial unit. -/
theorem processChunk_buffer_no_nn (b chunk : List Char) :
    hasNN (processChunk b chunk).1 = false := by
  unfold processChunk
  have hne := splitOnNN_ne_nil (b ++ chunk)
  simp only [List.getLast?_eq_getLast _ hne, Option.getD_some]
  exact (splitOnNN_parts (b ++ chunk)).1 _ (List.getLast_mem hne)

/-- Processing a concatenation of two chunks equals processing them in
sequence: the buffered loop is insensitive to chunk boundaries. -/
theorem processChunk_append (b a c : List Char) :
    processChunk b (a ++ c) =
      ((processChunk (processChunk b a).1 c).1,
        (processChunk b a).2 ++ (processChunk (processChunk b a).1 c).2) := by
  have h3 : splitOnNN (b ++ (a ++ c)) =
      (splitOnNN (b ++ a)).dropLast ++
        splitOnNN ((splitOnNN (b ++ a)).getLast?.getD [] ++ c) := by
    rw [← List.append_assoc]
    exact splitOnNN_append (b ++ a) c
  have hne2 : splitOnNN ((splitOnNN (b ++ a)).getLast?.getD [] ++ c) ≠ [] :=
    splitOnNN_ne_nil _
  unfold processChunk
  rw [h3, List.getLast?_append_of_ne_nil _ hne2,
    List.dropLast_append_of_ne_nil _ hne2, List.filterMap_append]

/-- The read loop over a chunk list equals one pass over the
concatenated bytes, for any delimiter-free starting buffer. -/
theorem processChunks_go (chunks : List (List Char)) :
    ∀ (buf : List Char) (outs : List (List Char)), hasNN buf = false →
      chunks.foldl
        (fun st chunk =>
          ((processChunk st.1 chunk).1, st.2 ++ (processChunk st.1 chunk).2))
        (buf, outs) =
      ((processChunk buf chunks.flatten).1,
        outs ++ (processChunk buf chunks.flatten).2) := by
  induction chunks with
  | nil =>
    intro buf outs hb
    simp only [List.foldl_nil, List.flatten_nil]
    unfold processChunk
    rw [List.append_nil, splitOnNN_of_no_nn buf hb]
    simp
  | cons ch chs ih =>
    intro buf outs hb
    simp only [List.foldl_cons, List.flatten_cons]
    rw [ih _ _ (processChunk_buffer_no_nn buf ch), processChunk_append buf ch chs.flatten]
    simp [List.append_assoc]

/-- The read loop depends only on the concatenation of the incoming
chunks. -/
theorem processChunks_eq_flatten (chunks : List (List Char)) :
    processChunks chunks = processChunk [] chunks.flatten := by
  unfold processChunks
  rw [processChunks_go chunks [] [] rfl]
  simp

/-- On nonblank units, the forwarding filter is exactly re-framing. -/
theorem filterMap_forwardUnit (units : List (List Char))
    (h : ∀ u ∈ units, isBlank u = false) :
    units.filterMap forwardUnit = units.map (fun u => u ++ nn) := by
  induction units with
  | nil => rfl
  | cons u us ih =>
    rw [List.filterMap_cons, List.map_cons,
      show forwardUnit u = some (u ++ nn) by
        unfold forwardUnit
        rw [if_neg (by simp [h u (List.mem_cons_self u us)])],
      ih (fun v hv => h v (List.mem_cons_of_mem u hv))]

/-- A well-formed framed input is forwarded unchanged by the
passthrough, whatever the chunking. -/
theorem passthrough_preserved (units chunks : List (List Char))
    (hchunks : chunks.flatten = (units.map (fun u => u ++ nn)).flatten)
    (hgood : ∀ u ∈ units,
      hasNN u = false ∧ isBlank u = false ∧ u.getLast? ≠ some '\n') :
    POST_passthrough chunks = units.map (fun u => u ++ nn) := by
  have hpc : processChunks chunks = ([], units.map (fun u => u ++ nn)) := by
    rw [processChunks_eq_flatten]
    unfold processChunk
    rw [List.nil_append, hchunks,
      splitOnNN_wire units (fun u hu => ⟨(hgood u hu).1, (hgood u hu).2.2⟩),
      List.getLast?_concat, List.dropLast_concat,
      filterMap_forwardUnit units (fun u hu => (hgood u hu).2.1)]
    rfl
  unfold POST_passthrough
  rw [hpc]
  simp

/-! ## Claim theorems about the streaming passthrough -/

/-- C4: the streaming passthrough appends incoming bytes to a buffer
and forwards only complete delimiter-terminated framed units (each
forwarded unit is a delimiter-free body followed by the double
newline); the held trailing piece never contains a complete unit; and
when the upstream closes, a nonempty held partial unit is flushed
as-is as the final output rather than dropped. -/
theorem passthrough_buffering (chunks : List (List Char)) :
    (∀ v ∈ (processChunks chunks).2,
      ∃ l, v = l ++ nn ∧ hasNN l = false ∧ isBlank l = false) ∧
    hasNN (processChunks chunks).1 = false ∧
    ((processChunks chunks).1 = [] →
      POST_passthrough chunks = (processChunks chunks).2) ∧
    ((processChunks chunks).1 ≠ [] →
      POST_passthrough chunks =
        (processChunks chunks).2 ++ [(processChunks chunks).1]) := by
  refine ⟨?_, ?_, ?_, ?_⟩
  · intro v hv
    rw [processChunks_eq_flatten] at hv
    unfold processChunk at hv
    obtain ⟨l, hmem, hfwd⟩ := List.mem_filterMap.mp hv
    have hl : hasNN l = false :=
      (splitOnNN_parts ([] ++ chunks.flatten)).1 l (List.dropLast_subset _ hmem)
    unfold forwardUnit at hfwd
    by_cases hbl : isBlank l
    · rw [if_pos hbl] at hfwd
      exact absurd hfwd (by simp)
    · rw [if_neg hbl] at hfwd
      exact ⟨l, (Option.some.injEq .. |>.mp hfwd).symm, hl, by simpa using hbl⟩
  · rw [processChunks_eq_flatten]
    exact processChunk_buffer_no_nn [] chunks.flatten
  · intro h
    unfold POST_passthrough
    rw [if_pos h]
  · intro h
    unfold POST_passthrough
    rw [if_neg h]

/-- Witness for `passthrough_buffering`: the second chunk leaves the
partial unit "ta: y" glued to the held "da"; at close the partial unit
"data: y" is flushed as-is after the one complete unit. -/
theorem passthrough_buffering_witness :
    (processChunks chunksHeld).1 ≠ [] ∧
    POST_passthrough chunksHeld =
      (processChunks chunksHeld).2 ++ [(processChunks chunksHeld).1] :=
  ⟨by decide, (passthrough_buffering chunksHeld).2.2.2 (by decide)⟩

/-- C7: the conversation identifier travels out-of-band — the
whole-response route places the backend's `conversation_id` in the
single `x-conversation-id` response header slot, and the emitted event
bodies are unchanged under any change of the conversation id; and the
forwarding layer passes a well-formed framed event stream through
verbatim — same units, same order, no unit coalesced or split —
whatever the wire chunking. -/
theorem conversation_id_out_of_band
    (messageId : String) (content : Option String) (cid cid2 : Option String)
    (units chunks : List (List Char))
    (hchunks : chunks.flatten = (units.map (fun u => u ++ nn)).flatten)
    (hgood : ∀ u ∈ units,
      hasNN u = false ∧ isBlank u = false ∧ u.getLast? ≠ some '\n') :
    headerOf (POST_whole messageId (BackendResult.ok content cid)) =
      headerValue cid ∧
    eventsOf (POST_whole messageId (BackendResult.ok content cid)) =
      eventsOf (POST_whole messageId (BackendResult.ok content cid2)) ∧
    POST_passthrough chunks = units.map (fun u => u ++ nn) :=
  ⟨rfl, rfl, passthrough_preserved units chunks hchunks hgood⟩

/-- Witness for `conversation_id_out_of_band` at two concrete framed
units re-chunked across a unit boundary, and a concrete conversation
id. -/
theorem conversation_id_out_of_band_witness :
    chunksTwo.flatten = (unitsTwo.map (fun u => u ++ nn)).flatten ∧
    (∀ u ∈ unitsTwo,
      hasNN u = false ∧ isBlank u = false ∧ u.getLast? ≠ some '\n') ∧
    (headerOf (POST_whole "msg_1" (BackendResult.ok (some "hi") (some "conv_7"))) =
      headerValue (some "conv_7") ∧
    eventsOf (POST_whole "msg_1" (BackendResult.ok (some "hi") (some "conv_7"))) =
      eventsOf (POST_whole "msg_1" (BackendResult.ok (some "hi") none)) ∧
    POST_passthrough chunksTwo = unitsTwo.map (fun u => u ++ nn)) :=
  ⟨by decide, by decide,
   conversation_id_out_of_band "msg_1" (some "hi") (some "conv_7") none
     unitsTwo chunksTwo (by decide) (by decide)⟩

end DevDocs

namespace DevDocs

/-! ## Claim theorems about client conversation-id plumbing -/

/-- C9 (code evaluated at the failing input): the whole-response route
echoes the backend conversation id in the `x-conversation-id` response
header, and the legacy `Chat` stores the echoed id and sends it in the
next request body; but the AI SDK v6 `Chat` never updates its stored
id, so its next request body carries no conversation identifier — the
subsequent turn does not attach to the conversation. -/
theorem conversation_id_resumption (messageId : String) (content : Option String)
    (cid : String) (h : cid ≠ "") :
    headerOf (POST_whole messageId (BackendResult.ok content (some cid))) =
      some cid ∧
    bodyConversationId (legacyOnResponse none (some cid)) = some cid ∧
    bodyConversationId (v6OnResponse none (some cid)) = none := by
  refine ⟨?_, ?_, rfl⟩
  · simp [POST_whole, headerOf, headerValue, h]
  · simp [legacyOnResponse, bodyConversationId, h]

/-- Witness for `conversation_id_resumption` at the echoed id
"conv_7". -/
theorem conversation_id_resumption_witness :
    "conv_7" ≠ "" ∧
    (headerOf (POST_whole "msg_1" (BackendResult.ok (some "hi") (some "conv_7"))) =
      some "conv_7" ∧
    bodyConversationId (legacyOnResponse none (some "conv_7")) = some "conv_7" ∧
    bodyConversationId (v6OnResponse none (some "conv_7")) = none) :=
  ⟨by decide, conversation_id_resumption "msg_1" (some "hi") "conv_7" (by decide)⟩

/-! ## Lemmas about the JavaScript value model -/

/-- Property access on a truthy value never throws. -/
theorem getProp_ok (v : JSVal) (key : String) (h : truthy v = true) :
    ∃ w, getProp v key = Except.ok w := by
  cases v with
  | undef => simp [truthy] at h
  | null => simp [truthy] at h
  | bool b => exact ⟨_, rfl⟩
  | num n => exact ⟨_, rfl⟩
  | str s => exact ⟨_, rfl⟩
  | arr es => exact ⟨_, rfl⟩
  | obj fs => exact ⟨_, rfl⟩

/-- On a non-thrown result `isStrOk` is the string recognizer. -/
theorem isStrOk_ok (v : JSVal) : isStrOk (Except.ok v) = isStrVal v := by
  cases v <;> rfl

/-- The Case 2 filter never throws. -/
theorem partFilter_ok (part : JSVal) : ∃ b, partFilter part = Except.ok b := by
  unfold partFilter
  by_cases ht : truthy part
  · obtain ⟨ty, hty⟩ := getProp_ok part "type" ht
    simp only [if_pos ht, hty]
    by_cases hs : strictEq ty "text"
    · simp only [if_pos hs]
      exact ⟨true, rfl⟩
    · obtain ⟨tx, htx⟩ := getProp_ok part "text" ht
      simp only [if_neg hs, htx]
      exact ⟨truthy tx, rfl⟩
  · simp only [if_neg ht]
    exact ⟨false, rfl⟩

/-- Only truthy parts pass the Case 2 filter. -/
theorem partFilter_true_truthy (part : JSVal)
    (h : partFilter part = Except.ok true) : truthy part = true := by
  by_cases ht : truthy part
  · exact ht
  · unfold partFilter at h
    rw [if_neg ht] at h
    simp at h

/-- The Case 2 map never throws on a truthy part. -/
theorem partValue_ok (part : JSVal) (h : truthy part = true) :
    ∃ w, partValue part = Except.ok w := by
  unfold partValue
  obtain ⟨tx, htx⟩ := getProp_ok part "text" h
  obtain ⟨ct, hct⟩ := getProp_ok part "content" h
  simp only [htx]
  by_cases htr : truthy tx
  · simp only [if_pos htr]
    exact ⟨tx, rfl⟩
  · simp only [if_neg htr, hct]
    by_cases hcr : truthy ct
    · simp only [if_pos hcr]
      exact ⟨ct, rfl⟩
    · simp only [if_neg hcr]
      exact ⟨_, rfl⟩

/-- The Case 4 filter never throws. -/
theorem partFilterParts_ok (part : JSVal) :
    ∃ b, partFilterParts part = Except.ok b := by
  unfold partFilterParts
  by_cases ht : truthy part
  · obtain ⟨ty, hty⟩ := getProp_ok part "type" ht
    simp only [if_pos ht, hty]
    exact ⟨strictEq ty "text", rfl⟩
  · simp only [if_neg ht]
    exact ⟨false, rfl⟩

/-- Only truthy parts pass the Case 4 filter. -/
theorem partFilterParts_true_truthy (part : JSVal)
    (h : partFilterParts part = Except.ok true) : truthy part = true := by
  by_cases ht : truthy part
  · exact ht
  · unfold partFilterParts at h
    rw [if_neg ht] at h
    simp at h

/-- The Case 4 map never throws on a truthy part. -/
theorem partValueParts_ok (part : JSVal) (h : truthy part = true) :
    ∃ w, partValueParts part = Except.ok w :=
  getProp_ok part "text" h

/-- A filter whose predicate never throws never throws, and every kept
element passed the predicate. -/
theorem filterME_ok (p : JSVal → Except JSErr Bool) (l : List JSVal)
    (hp : ∀ v ∈ l, ∃ b, p v = Except.ok b) :
    ∃ fs, filterME p l = Except.ok fs ∧
      ∀ v ∈ fs, v ∈ l ∧ p v = Except.ok true := by
  induction l with
  | nil => exact ⟨[], rfl, by simp⟩
  | cons v vs ih =>
    obtain ⟨b, hb⟩ := hp v (List.mem_cons_self v vs)
    obtain ⟨fs, hfs, hmem⟩ := ih (fun w hw => hp w (List.mem_cons_of_mem v hw))
    cases b with
    | true =>
      refine ⟨v :: fs, ?_, ?_⟩
      · simp [filterME, hb, hfs]
      · intro w hw
        rcases List.mem_cons.mp hw with rfl | hw
        · exact ⟨List.mem_cons_self w vs, hb⟩
        · exact ⟨List.mem_cons_of_mem v (hmem w hw).1, (hmem w hw).2⟩
    | false =>
      refine ⟨fs, ?_, ?_⟩
      · simp [filterME, hb, hfs]
      · intro w hw
        exact ⟨List.mem_cons_of_mem v (hmem w hw).1, (hmem w hw).2⟩

/-- A map whose function never throws on the given list never
throws. -/
theorem mapME_ok (f : JSVal → Except JSErr JSVal) (l : List JSVal)
    (hf : ∀ v ∈ l, ∃ w, f v = Except.ok w) :
    ∃ ws, mapME f l = Except.ok ws := by
  induction l with
  | nil => exact ⟨[], rfl⟩
  | cons v vs ih =>
    obtain ⟨w, hw⟩ := hf v (List.mem_cons_self v vs)
    obtain ⟨ws, hws⟩ := ih (fun u hu => hf u (List.mem_cons_of_mem v hu))
    exact ⟨w :: ws, by simp only [mapME, hw, hws]⟩

/-- Cases 4 and 5 never throw and always produce a string. -/
theorem caseParts_str (m : JSMessage) :
    ∃ s, caseParts m = Except.ok (JSVal.str s) := by
  unfold caseParts
  by_cases ha : isArrVal m.parts
  · obtain ⟨fs, hfs, hmem⟩ := filterME_ok partFilterParts (arrElems m.parts)
      (fun v _ => partFilterParts_ok v)
    obtain ⟨ws, hws⟩ := mapME_ok partValueParts fs
      (fun v hv => partValueParts_ok v (partFilterParts_true_truthy v (hmem v hv).2))
    simp only [if_pos ha, hfs, hws]
    exact ⟨_, rfl⟩
  · simp only [if_neg ha]
    exact ⟨_, rfl⟩

/-- String values are exactly the `JSVal.str` constructors. -/
theorem isStrVal_exists (v : JSVal) (h : isStrVal v = true) :
    ∃ s, v = JSVal.str s := by
  cases v with
  | str s => exact ⟨s, rfl⟩
  | undef => simp [isStrVal] at h
  | null => simp [isStrVal] at h
  | bool b => simp [isStrVal] at h
  | num n => simp [isStrVal] at h
  | arr es => simp [isStrVal] at h
  | obj fs => simp [isStrVal] at h

/-- Object values are exactly the `JSVal.obj` constructors. -/
theorem isObjVal_exists (v : JSVal) (h : isObjVal v = true) :
    ∃ fs, v = JSVal.obj fs := by
  cases v with
  | obj fs => exact ⟨fs, rfl⟩
  | undef => simp [isObjVal] at h
  | null => simp [isObjVal] at h
  | bool b => simp [isObjVal] at h
  | num n => simp [isObjVal] at h
  | str s => simp [isObjVal] at h
  | arr es => simp [isObjVal] at h

/-! ## Claim theorems about `getMessageContent` -/

/-- C10 counterexample: a message whose object content has the truthy
non-string `text` field `42` makes `getMessageContent` return the raw
number `42`, not a string (Case 3 returns `msgAny.content.text`
unconverted). -/
theorem getMessageContent_not_always_string :
    getMessageContent msgLeak = Except.ok (JSVal.num 42) ∧
    isStrOk (getMessageContent msgLeak) = false :=
  ⟨rfl, rfl⟩

/-- C10 amended: for every message shape, `getMessageContent` never
throws; and its result is a string unless the content is an object
whose truthy `text` field (or, that failing, truthy `content` field) is
not a string, in which case that raw field value is returned. -/
theorem getMessageContent_total (m : JSMessage) :
    (∃ v, getMessageContent m = Except.ok v) ∧
    (case3Leak m = false → isStrOk (getMessageContent m) = true) := by
  unfold getMessageContent
  by_cases h1 : isStrVal m.content
  · simp only [if_pos h1]
    refine ⟨⟨m.content, rfl⟩, fun _ => ?_⟩
    rw [isStrOk_ok]
    exact h1
  · by_cases h2 : isArrVal m.content
    · obtain ⟨fs, hfs, hmem⟩ := filterME_ok partFilter (arrElems m.content)
        (fun v _ => partFilter_ok v)
      obtain ⟨ws, hws⟩ := mapME_ok partValue fs
        (fun v hv => partValue_ok v (partFilter_true_truthy v (hmem v hv).2))
      simp only [if_neg h1, if_pos h2, hfs, hws]
      exact ⟨⟨_, rfl⟩, fun _ => rfl⟩
    · by_cases h3 : truthy m.content && isObjVal m.content
      · obtain ⟨fields, hf⟩ :=
          isObjVal_exists m.content (by
            rw [Bool.and_eq_true] at h3
            exact h3.2)
        have hleak : case3Leak m =
            (((truthy ((fields.lookup "text").getD JSVal.undef)) &&
              !(isStrVal ((fields.lookup "text").getD JSVal.undef))) ||
            (!(truthy ((fields.lookup "text").getD JSVal.undef)) &&
              (truthy ((fields.lookup "content").getD JSVal.undef)) &&
              !(isStrVal ((fields.lookup "content").getD JSVal.undef)))) := by
          unfold case3Leak
          rw [hf]
        simp only [if_neg h1, if_neg h2, if_pos h3]
        rw [hf]
        simp only [getProp]
        by_cases htx : truthy ((fields.lookup "text").getD JSVal.undef)
        · simp only [if_pos htx]
          refine ⟨⟨_, rfl⟩, fun hl => ?_⟩
          rw [hleak] at hl
          have hA := (Bool.or_eq_false_iff.mp hl).1
          rw [htx] at hA
          rw [isStrOk_ok]
          simpa using hA
        · have htxf : truthy ((fields.lookup "text").getD JSVal.undef) = false := by
            simpa using htx
          by_cases hct : truthy ((fields.lookup "content").getD JSVal.undef)
          · simp only [if_neg htx, if_pos hct]
            refine ⟨⟨_, rfl⟩, fun hl => ?_⟩
            rw [hleak] at hl
            have hB := (Bool.or_eq_false_iff.mp hl).2
            rw [htxf, hct] at hB
            rw [isStrOk_ok]
            simpa using hB
          · obtain ⟨s, hs⟩ := caseParts_str m
            simp only [if_neg htx, if_neg hct, hs]
            exact ⟨⟨_, rfl⟩, fun _ => rfl⟩
      · obtain ⟨s, hs⟩ := caseParts_str m
        simp only [if_neg h1, if_neg h2, if_neg h3, hs]
        exact ⟨⟨_, rfl⟩, fun _ => rfl⟩

/-- Witness for `getMessageContent_total` at a plain string-content
message. -/
theorem getMessageContent_total_witness :
    case3Leak msgStr = false ∧ isStrOk (getMessageContent msgStr) = true :=
  ⟨by decide, (getMessageContent_total msgStr).2 (by decide)⟩

end DevDocs
